import Mathlib

/-!
Verification of the object-model primitives of the rune interpreter
(`src/data.rs`, `src/eval.rs`, `src/core/object/func.rs`) against its
natural-language specification.

Lisp objects (`GcObj`) are modelled by the inductive `Obj` below.  A handle
is modelled as the dereferenced object: an address together with the
transitive content it points to.  In a consistent heap an address determines
the content stored at it, so raw slot equality (`GcObj::ptr_eq`) coincides
with equality of these modelled values.  Machine integers are modelled as
`Nat`/`Int` with explicit wrap-around where the Rust code computes in a
fixed width.  Fallible primitives return `Except LispError`.
-/

namespace Rune

mutual

/-- The tagged value `GcObj` / `Object`.  `float` carries the 64-bit IEEE-754
bit pattern of the boxed `f64` (`f64::to_bits`); `str` carries the sequence of
Unicode code points of the UTF-8 string; boxed variants carry their heap
address.  Interned symbols are identified by their name (invariant I5). -/
inductive Obj where
  | int (n : Int)
  | float (addr : Nat) (bits : Nat)
  | symbol (name : String)
  | str (addr : Nat) (chars : List Nat)
  | cons (addr : Nat) (car cdr : Obj)
  | vec (addr : Nat) (elems : ObjList)
  | lispFn (addr : Nat)
  | subrFn (fnId : Nat)
deriving DecidableEq, Repr

/-- The element sequence of a lisp vector (a specialised `List Obj`, split out
so that `Obj` is not a nested inductive). -/
inductive ObjList where
  | nilL
  | consL (head : Obj) (tail : ObjList)
deriving DecidableEq, Repr

end

/-- The interned `nil` symbol, the canonical false / empty-list value. -/
def nil : Obj := .symbol "nil"

/-- `Vec::len` on the modelled element sequence. -/
def ObjList.length : ObjList → Nat
  | .nilL => 0
  | .consL _ t => t.length + 1

/-- `Vec::get` on the modelled element sequence. -/
def ObjList.get? : ObjList → Nat → Option Obj
  | .nilL, _ => none
  | .consL h _, 0 => some h
  | .consL _ t, n + 1 => t.get? n

/-- View of the element sequence as a `List`. -/
def ObjList.toList : ObjList → List Obj
  | .nilL => []
  | .consL h t => h :: t.toList

/-- The `Type` enum of `core/error.rs`, restricted to the variants used by the
primitives modelled here. -/
inductive Ty where
  | vec
  | func
  | list
deriving DecidableEq, Repr

/-- The structured error surface of the primitives (spec section 7). -/
inductive LispError where
  | typeError (expected : Ty) (found : Obj)
  | argError (expected actual : Nat) (name : String)
  | outOfBounds (idx len : Nat)
  | borrowed
deriving DecidableEq, Repr

/-- `GcObj::ptr_eq`: raw slot equality.  Since a handle is modelled as its
address together with the content that address determines, slot equality is
equality of the modelled values. -/
def ptr_eq (a b : Obj) : Bool := decide (a = b)

/-- `eq` from `data.rs`. -/
def eq (obj1 obj2 : Obj) : Bool := ptr_eq obj1 obj2

/-- `eql` from `data.rs`: two floats compare by bit pattern, everything else by
`ptr_eq`. -/
def eql (obj1 obj2 : Obj) : Bool :=
  match obj1, obj2 with
  | .float _ f1, .float _ f2 => decide (f1 = f2)
  | o1, o2 => ptr_eq o1 o2

mutual

/-- `equal` from `data.rs` is `obj1 == obj2`, the structural `PartialEq` on
objects.  Modelled from the spec: the `PartialEq` impl itself is not among the
given sources; per spec section 4.A it recurses through cons and vectors,
compares strings byte-wise (content-wise), floats by bit pattern, and is
`ptr_eq` otherwise. -/
def equal : Obj → Obj → Bool
  | .float _ f1, .float _ f2 => decide (f1 = f2)
  | .str _ s1, .str _ s2 => decide (s1 = s2)
  | .cons _ a d, .cons _ a2 d2 => equal a a2 && equal d d2
  | .vec _ xs, .vec _ ys => equalList xs ys
  | o1, o2 => ptr_eq o1 o2

/-- Element-wise `equal` on vector contents. -/
def equalList : ObjList → ObjList → Bool
  | .nilL, .nilL => true
  | .consL x xs, .consL y ys => equal x y && equalList xs ys
  | _, _ => false

end

/-- `logand` from `data.rs`.  The `i64` arguments are modelled by their 64-bit
two's-complement bit patterns (bitwise AND acts on the pattern and cannot
overflow), so each element is a `Nat` below `2 ^ 64`. -/
def logand (int_or_markers : List Nat) : Nat :=
  int_or_markers.foldl (fun accum x => accum &&& x) 0

/-- `FnArgs` from `core/object/func.rs`.  `required` and `optional` are `u16`
fields, so they are below `2 ^ 16`. -/
structure FnArgs where
  rest : Bool
  required : Nat
  optional : Nat
  advice : Bool
deriving DecidableEq, Repr

/-- `FnArgs::num_of_fill_args`.  `self.required + self.optional` is `u16`
addition, which wraps modulo `2 ^ 16`; `saturating_sub` is `Nat`
subtraction. -/
def FnArgs.num_of_fill_args (self : FnArgs) (args : Nat) (name : String) :
    Except LispError Nat :=
  if args < self.required then
    .error (.argError self.required args name)
  else
    let total := (self.required + self.optional) % 65536
    if !self.rest && args > total then
      .error (.argError total args name)
    else
      .ok (total - args)

/-- Byte width of one Unicode code point in UTF-8; `str::len` in Rust is the
byte length of the string, the sum of these widths. -/
def utf8Width (c : Nat) : Nat :=
  if c < 0x80 then 1 else if c < 0x800 then 2 else if c < 0x10000 then 3 else 4

/-- The byte length `str::len` of the modelled string. -/
def utf8Length (chars : List Nat) : Nat := (chars.map utf8Width).sum

/-- `aref` from `data.rs`: vectors index by element, strings by character
(`string.chars().nth(idx)`, the code point returned as an `Int`); the
out-of-bounds error carries `vec.len()` resp. `string.len()` (bytes); any
other object is a `TypeError` against `Type::Vec`. -/
def aref (array : Obj) (idx : Nat) : Except LispError Obj :=
  match array with
  | .vec _ elems =>
    match elems.get? idx with
    | some x => .ok x
    | none => .error (.outOfBounds idx elems.length)
  | .str _ chars =>
    match chars.get? idx with
    | some c => .ok (.int c)
    | none => .error (.outOfBounds idx (utf8Length chars))
  | x => .error (.typeError .vec x)

/-- `aset` from `data.rs`, acting on the vector's `RefCell` contents.
`borrowed` records whether an outstanding borrow makes `try_borrow_mut` fail.
The returned list is the vector's contents after the call, alongside the
returned value or error. -/
def aset (borrowed : Bool) (array : List Obj) (idx : Nat) (newlet : Obj) :
    List Obj × Except LispError Obj :=
  if borrowed then
    (array, .error .borrowed)
  else if idx < array.length then
    (array.set idx newlet, .ok newlet)
  else
    (array, .error (.outOfBounds idx array.length))

/-- The global variable table `Env::vars`, modelled as an association list from
symbol names to values (symbols are interned, so a name identifies its
symbol). -/
structure Env where
  vars : List (String × Obj)
deriving DecidableEq, Repr

/-- Lookup in the variable table (`env.vars.get`). -/
def varsGet : List (String × Obj) → String → Option Obj
  | [], _ => none
  | (k, w) :: rest, s => if k = s then some w else varsGet rest s

/-- Insert-or-replace in the variable table (`HashMap::insert`). -/
def varsInsert : List (String × Obj) → String → Obj → List (String × Obj)
  | [], s, v => [(s, v)]
  | (k, w) :: rest, s, v =>
    if k = s then (k, v) :: rest else (k, w) :: varsInsert rest s v

/-- Modelled from the spec: `Env::set_var` (defined in `env.rs`, which is not
among the given sources) stores `newlet` as the value of the variable
`place`. -/
def Env.set_var (env : Env) (place : String) (newlet : Obj) : Env :=
  ⟨varsInsert env.vars place newlet⟩

/-- `set` from `data.rs`: stores the value through `Env::set_var` and returns
it. -/
def set (place : String) (newlet : Obj) (env : Env) : Except LispError (Obj × Env) :=
  .ok (newlet, env.set_var place newlet)

/-- `boundp` from `data.rs`. -/
def boundp (symbol : String) (env : Env) : Bool :=
  (varsGet env.vars symbol).isSome

/-- `default_boundp` from `data.rs`. -/
def default_boundp (symbol : String) (env : Env) : Bool :=
  (varsGet env.vars symbol).isSome

/-- `defvar` from `data.rs`: `initvalue.unwrap_or_default()` (the default
object is `nil`) is handed to `set`, unconditionally. -/
def defvar (symbol : String) (initvalue : Option Obj) (_docstring : Option String)
    (env : Env) : Except LispError (Obj × Env) :=
  let value := initvalue.getD nil
  set symbol value env

/-- The `Function` sum type.  Modelled from the spec (section 4.G): `Function`
is `LispFn | SubrFn | Symbol` (indirect function cell); its definition is not
among the given sources. -/
inductive Function where
  | lispFn (addr : Nat)
  | subrFn (fnId : Nat)
  | symbol (name : String)
deriving DecidableEq, Repr

/-- Modelled from the spec: `definition.try_into()` for `Function` succeeds
exactly on the function variants and fails with a `TypeError` otherwise (the
`TryFrom` impl is not among the given sources). -/
def toFunction : Obj → Except LispError Function
  | .lispFn a => .ok (.lispFn a)
  | .subrFn i => .ok (.subrFn i)
  | .symbol n => .ok (.symbol n)
  | x => .error (.typeError .func x)

/-- `fset` from `data.rs`, acting on the symbol's function cell: `definition ==
nil()` (the structural `==` of `GcObj`) unbinds the cell, otherwise the
definition is converted to a `Function` and stored (`set_func` is modelled
from the spec as storing without failure).  Returns the new cell contents and
the symbol. -/
def fset (symbol : String) (definition : Obj) :
    Except LispError (Option Function × String) :=
  if equal definition nil then
    .ok (none, symbol)
  else
    match toFunction definition with
    | .ok func => .ok (some func, symbol)
    | .error e => .error e

/-- `defalias` from `data.rs`: forwards to `fset`, ignoring the docstring. -/
def defalias (symbol : String) (definition : Obj) (_docstring : Option String) :
    Except LispError (Option Function × String) :=
  fset symbol definition

/-- Modelled from the spec: `last.as_list(..)` iterates the elements of a
proper list (`apply`'s last argument "must be a proper list"); a non-list or
an improper tail fails. -/
def as_list : Obj → Except LispError (List Obj)
  | .symbol n => if n = "nil" then .ok [] else .error (.typeError .list (.symbol n))
  | .cons _ car cdr => do
    let rest ← as_list cdr
    .ok (car :: rest)
  | x => .error (.typeError .list x)

/-- The argument-vector assembly of `apply` (`eval.rs`): with no arguments the
vector is empty; otherwise the elements of the last argument, read as a list,
are spliced after the preceding positional arguments. -/
def applyArgList : List Obj → Except LispError (List Obj)
  | [] => .ok []
  | a :: rest => do
    let spliced ← as_list ((a :: rest).getLast (List.cons_ne_nil a rest))
    .ok ((a :: rest).dropLast ++ spliced)

/-- `apply` from `eval.rs`.  `Function::call` is external to the given sources,
so the dispatch is a parameter: `apply` assembles the argument vector and
hands it to `call`. -/
def apply (call : Function → List Obj → Except LispError Obj)
    (function : Function) (arguments : List Obj) : Except LispError Obj := do
  let args ← applyArgList arguments
  call function args

/-- `funcall` from `eval.rs`: calls directly on the arguments as given. -/
def funcall (call : Function → List Obj → Except LispError Obj)
    (function : Function) (arguments : List Obj) : Except LispError Obj :=
  call function arguments

/-- Discriminator for the `Float` variant. -/
def isFloat : Obj → Bool
  | .float _ _ => true
  | _ => false

/-- `f64::to_bits 0.0`: the IEEE-754 bit pattern of positive zero. -/
def zeroBits : Nat := 0

/-- `f64::to_bits (-0.0)`: the IEEE-754 bit pattern of negative zero (only the
sign bit set). -/
def negZeroBits : Nat := 0x8000000000000000

mutual

/-- Structural equality is reflexive, by mutual induction over objects and
vector contents. -/
theorem equal_refl : ∀ a : Obj, equal a a = true
  | .int _ => by simp [equal, ptr_eq]
  | .float _ _ => by simp [equal]
  | .symbol _ => by simp [equal, ptr_eq]
  | .str _ _ => by simp [equal]
  | .cons _ c d => by simp [equal, equal_refl c, equal_refl d]
  | .vec _ xs => by simp [equal, equalList_refl xs]
  | .lispFn _ => by simp [equal, ptr_eq]
  | .subrFn _ => by simp [equal, ptr_eq]

/-- Element-wise structural equality is reflexive. -/
theorem equalList_refl : ∀ xs : ObjList, equalList xs xs = true
  | .nilL => by simp [equalList]
  | .consL x xs => by simp [equalList, equal_refl x, equalList_refl xs]

end

/-- C9: `default_boundp` returns the same boolean as `boundp` on every symbol
and environment (no buffer-local machinery exists). -/
theorem default_boundp_eq_boundp (symbol : String) (env : Env) :
    default_boundp symbol env = boundp symbol env := rfl

/-- C8: `logand` folds bitwise AND over its arguments starting from
accumulator `0`; with zero arguments it returns `0`, and consequently it
returns `0` on every argument list. -/
theorem logand_spec :
    logand [] = 0 ∧
    (∀ (l : List Nat) (x : Nat), logand (l ++ [x]) = logand l &&& x) ∧
    (∀ l : List Nat, logand l = 0) := by
  refine ⟨rfl, ?_, ?_⟩
  · intro l x
    simp [logand, List.foldl_append]
  · intro l
    show List.foldl (fun accum x => accum &&& x) 0 l = 0
    induction l with
    | nil => rfl
    | cons x xs ih => simpa [Nat.zero_and] using ih

/-- C7: pointer equality implies structural equality. -/
theorem eq_implies_equal (a b : Obj) (h : eq a b = true) : equal a b = true := by
  have hab : a = b := of_decide_eq_true h
  subst hab
  exact equal_refl a

/-- Witness for C7 at a concrete cons cell. -/
theorem eq_implies_equal_witness :
    equal (Obj.cons 5 (Obj.int 1) nil) (Obj.cons 5 (Obj.int 1) nil) = true :=
  eq_implies_equal (Obj.cons 5 (Obj.int 1) nil) (Obj.cons 5 (Obj.int 1) nil)
    (by decide)

/-- C4: `eql` agrees with `eq` except when both arguments are floats, where it
compares the 64-bit IEEE-754 bit patterns; in particular `(eql 0.0 -0.0)` is
false whatever the addresses of the two boxes. -/
theorem eql_spec :
    (∀ o1 o2 : Obj, ¬(isFloat o1 = true ∧ isFloat o2 = true) →
      eql o1 o2 = eq o1 o2) ∧
    (∀ a1 f1 a2 f2 : Nat,
      eql (.float a1 f1) (.float a2 f2) = decide (f1 = f2)) ∧
    (∀ a1 a2 : Nat, eql (.float a1 zeroBits) (.float a2 negZeroBits) = false) := by
  refine ⟨?_, fun a1 f1 a2 f2 => rfl, fun a1 a2 => rfl⟩
  intro o1 o2 h
  cases o1 <;> cases o2 <;> first
    | rfl
    | exact absurd ⟨rfl, rfl⟩ h

/-- Witness for C4 at a concrete non-float pair. -/
theorem eql_spec_witness : eql (Obj.int 3) nil = eq (Obj.int 3) nil :=
  eql_spec.1 (Obj.int 3) nil (by decide)

/-- C2 counterexample: with `required = optional = 40000` the u16 sum
`required + optional` wraps to `14464`, so a call with 40000 arguments fails
with `ArgError{expected: 14464, actual: 40000}`, while the claim (with the
mathematical `total = 80000`) demands that `max(0, 80000 - 40000) = 40000` be
returned. -/
theorem num_of_fill_args_counterexample :
    FnArgs.num_of_fill_args ⟨false, 40000, 40000, false⟩ 40000 "f" =
      .error (.argError 14464 40000 "f") ∧
    FnArgs.num_of_fill_args ⟨false, 40000, 40000, false⟩ 40000 "f" ≠
      .ok 40000 := by
  constructor
  · rfl
  · intro h
    rw [show FnArgs.num_of_fill_args ⟨false, 40000, 40000, false⟩ 40000 "f" =
      .error (.argError 14464 40000 "f") from rfl] at h
    exact Except.noConfusion h

/-- C2 (amended: `total` is the u16 sum `(required + optional) mod 2^16`; the
claim as stated holds whenever `required + optional < 2^16`): too few
arguments fail with `ArgError{expected: required}`; too many without `&rest`
fail with `ArgError{expected: total}`; otherwise `max(0, total − actual)` is
returned, which is never negative. -/
theorem num_of_fill_args_spec (fa : FnArgs) (args : Nat) (name : String)
    (hn : fa.required + fa.optional < 65536) :
    (args < fa.required →
      fa.num_of_fill_args args name = .error (.argError fa.required args name)) ∧
    (fa.required ≤ args → fa.rest = false → fa.required + fa.optional < args →
      fa.num_of_fill_args args name =
        .error (.argError (fa.required + fa.optional) args name)) ∧
    (fa.required ≤ args → (fa.rest = true ∨ args ≤ fa.required + fa.optional) →
      fa.num_of_fill_args args name = .ok (fa.required + fa.optional - args) ∧
      ((fa.required + fa.optional - args : Nat) : Int) =
        max 0 ((fa.required : Int) + (fa.optional : Int) - (args : Int))) := by
  have hmod : (fa.required + fa.optional) % 65536 = fa.required + fa.optional :=
    Nat.mod_eq_of_lt hn
  refine ⟨?_, ?_, ?_⟩
  · intro h
    simp [FnArgs.num_of_fill_args, h]
  · intro h1 hrest h2
    simp only [FnArgs.num_of_fill_args, hmod, hrest]
    rw [if_neg (by omega), if_pos (by simpa using h2)]
  · intro h1 h2
    have hcond : ¬(!fa.rest && decide (args > (fa.required + fa.optional) % 65536)) = true := by
      rcases h2 with h2 | h2
      · simp [h2]
      · simp [hmod]
        intro
        omega
    constructor
    · simp only [FnArgs.num_of_fill_args, hmod]
      rw [if_neg (by omega)]
      simp only [hmod] at hcond
      simp [hcond, hmod]
    · omega

/-- Witness for C2 (amended) at `required = 2, optional = 1, rest = false`
with 4 actual arguments (spec scenario 8). -/
theorem num_of_fill_args_spec_witness :
    FnArgs.num_of_fill_args ⟨false, 2, 1, false⟩ 4 "f" =
      .error (.argError 3 4 "f") :=
  (num_of_fill_args_spec ⟨false, 2, 1, false⟩ 4 "f" (by decide)).2.1
    (by decide) rfl (by decide)

/-- C10: a successful `aset` (index in bounds, no outstanding borrow) returns
the stored value, stores it at the index, and leaves the length and every
other element unchanged; a failed out-of-bounds `aset` leaves the vector
entirely unchanged. -/
theorem aset_spec (array : List Obj) (idx : Nat) (newlet : Obj) :
    (idx < array.length →
      (aset false array idx newlet).2 = .ok newlet ∧
      (aset false array idx newlet).1[idx]? = some newlet ∧
      (aset false array idx newlet).1.length = array.length ∧
      (∀ j : Nat, j ≠ idx → (aset false array idx newlet).1[j]? = array[j]?)) ∧
    (array.length ≤ idx →
      aset false array idx newlet = (array, .error (.outOfBounds idx array.length))) := by
  constructor
  · intro h
    have hset : aset false array idx newlet = (array.set idx newlet, .ok newlet) := by
      simp [aset, h]
    rw [hset]
    refine ⟨rfl, List.getElem?_set_eq_of_lt newlet h, List.length_set array idx newlet, ?_⟩
    intro j hj
    exact List.getElem?_set_ne (fun he => hj he.symm)
  · intro h
    simp only [aset, Bool.false_eq_true, if_false, if_neg (Nat.not_lt.mpr h)]

/-- Witness for C10 at a concrete two-element vector. -/
theorem aset_spec_witness :
    (aset false [Obj.int 1, Obj.int 2] 0 (Obj.int 9)).1[0]? = some (Obj.int 9) :=
  ((aset_spec [Obj.int 1, Obj.int 2] 0 (Obj.int 9)).1 (by decide)).2.1

/-- Vector indexing fails exactly when the index reaches the length. -/
theorem ObjList.get?_eq_none_iff : ∀ (xs : ObjList) (i : Nat),
    xs.get? i = none ↔ xs.length ≤ i
  | .nilL, i => by simp [ObjList.get?, ObjList.length]
  | .consL h t, 0 => by simp [ObjList.get?, ObjList.length]
  | .consL h t, n + 1 => by
    have ih := ObjList.get?_eq_none_iff t n
    simp only [ObjList.get?, ObjList.length]
    rw [ih]
    omega

/-- C3: `aref` returns the i-th element of a vector; on a string it returns
the code point at character index i (not byte offset) as an `Int`; past the
end it fails with `OutOfBounds{idx, len}` (carrying the length the source
reports there: `vec.len()` resp. the byte length `string.len()`); on any
other object it fails with `TypeError(Vec)`. -/
theorem aref_spec (i : Nat) :
    (∀ (ad : Nat) (xs : ObjList) (x : Obj), xs.get? i = some x →
      aref (.vec ad xs) i = .ok x) ∧
    (∀ (ad : Nat) (xs : ObjList), xs.length ≤ i →
      aref (.vec ad xs) i = .error (.outOfBounds i xs.length)) ∧
    (∀ (ad : Nat) (cs : List Nat) (c : Nat), cs.get? i = some c →
      aref (.str ad cs) i = .ok (.int c)) ∧
    (∀ (ad : Nat) (cs : List Nat), cs.length ≤ i →
      aref (.str ad cs) i = .error (.outOfBounds i (utf8Length cs))) ∧
    (∀ o : Obj, (∀ ad xs, o ≠ .vec ad xs) → (∀ ad cs, o ≠ .str ad cs) →
      aref o i = .error (.typeError .vec o)) := by
  refine ⟨?_, ?_, ?_, ?_, ?_⟩
  · intro ad xs x hx
    simp [aref, hx]
  · intro ad xs hlen
    simp [aref, (ObjList.get?_eq_none_iff xs i).mpr hlen]
  · intro ad cs c hc
    have hc2 : cs[i]? = some c := by rw [← List.get?_eq_getElem?]; exact hc
    simp [aref, hc2]
  · intro ad cs hlen
    have hn : cs[i]? = none := List.getElem?_eq_none hlen
    simp [aref, hn]
  · intro o hvec hstr
    cases o with
    | vec ad xs => exact absurd rfl (hvec ad xs)
    | str ad cs => exact absurd rfl (hstr ad cs)
    | int n => rfl
    | float ad b => rfl
    | symbol n => rfl
    | cons ad c d => rfl
    | lispFn ad => rfl
    | subrFn fid => rfl

/-- Witness for C3: `(aref "héllo" 1)` is the code point of `é`, 233 (spec
scenario 6); the string's code points are `[104, 233, 108, 108, 111]`. -/
theorem aref_spec_witness :
    aref (Obj.str 0 [104, 233, 108, 108, 111]) 1 = .ok (.int 233) :=
  (aref_spec 1).2.2.1 0 [104, 233, 108, 108, 111] 233 rfl

/-- Lookup after insert at the inserted key yields the inserted value. -/
theorem varsGet_varsInsert_self (l : List (String × Obj)) (s : String) (v : Obj) :
    varsGet (varsInsert l s v) s = some v := by
  induction l with
  | nil => simp [varsInsert, varsGet]
  | cons kv rest ih =>
    obtain ⟨k, w⟩ := kv
    by_cases hk : k = s
    · simp [varsInsert, varsGet, hk]
    · simp [varsInsert, varsGet, hk, ih]

/-- Lookup after insert at any other key is unchanged. -/
theorem varsGet_varsInsert_other (l : List (String × Obj)) (s s2 : String)
    (v : Obj) (hne : s2 ≠ s) : varsGet (varsInsert l s v) s2 = varsGet l s2 := by
  have hns : ¬s = s2 := fun h => hne h.symm
  induction l with
  | nil => simp [varsInsert, varsGet, hns]
  | cons kv rest ih =>
    obtain ⟨k, w⟩ := kv
    by_cases hk : k = s
    · subst hk
      simp [varsInsert, varsGet, hns]
    · simp [varsInsert, varsGet, hk, ih]

/-- C1 counterexample: with the symbol `x` already bound to `5`,
`defvar x 7` overwrites the binding with `7` and returns `7`, although the
claim demands that the value of an already-bound symbol be left unchanged. -/
theorem defvar_counterexample :
    defvar "x" (some (Obj.int 7)) none ⟨[("x", Obj.int 5)]⟩ =
      .ok (Obj.int 7, ⟨[("x", Obj.int 7)]⟩) ∧
    varsGet (Env.vars ⟨[("x", Obj.int 7)]⟩) "x" ≠
      varsGet (Env.vars ⟨[("x", Obj.int 5)]⟩) "x" := by
  constructor
  · rfl
  · intro h
    rw [show varsGet (Env.vars ⟨[("x", Obj.int 7)]⟩) "x" = some (Obj.int 7) from rfl,
      show varsGet (Env.vars ⟨[("x", Obj.int 5)]⟩) "x" = some (Obj.int 5) from rfl] at h
    exact absurd (Obj.int.inj (Option.some.inj h)) (by decide)

/-- C1 (amended): `defvar` stores `init` when given and `nil` otherwise,
unconditionally — also when the symbol is already bound — returns the stored
value, and leaves the bindings of all other symbols unchanged. -/
theorem defvar_spec (symbol : String) (initvalue : Option Obj)
    (doc : Option String) (env : Env) :
    ∃ env2 : Env,
      defvar symbol initvalue doc env = .ok (initvalue.getD nil, env2) ∧
      varsGet env2.vars symbol = some (initvalue.getD nil) ∧
      (∀ s : String, s ≠ symbol → varsGet env2.vars s = varsGet env.vars s) := by
  refine ⟨env.set_var symbol (initvalue.getD nil), rfl, ?_, ?_⟩
  · exact varsGet_varsInsert_self env.vars symbol (initvalue.getD nil)
  · intro s hs
    exact varsGet_varsInsert_other env.vars symbol s (initvalue.getD nil) hs

/-- Witness for C1 (amended) on an environment where `x` is bound to `5`. -/
theorem defvar_spec_witness :
    ∃ env2 : Env,
      defvar "x" (some (Obj.int 7)) none ⟨[("x", Obj.int 5)]⟩ =
        .ok (Obj.int 7, env2) ∧
      varsGet env2.vars "x" = some (Obj.int 7) ∧
      (∀ s : String, s ≠ "x" →
        varsGet env2.vars s = varsGet [("x", Obj.int 5)] s) :=
  defvar_spec "x" (some (Obj.int 7)) none ⟨[("x", Obj.int 5)]⟩

/-- C5: `apply` splices the elements of its final argument — a proper list —
onto the end of the preceding positional arguments before calling the
function, while `funcall` calls directly on the arguments as given (for every
dispatch function `call`, since `Function::call` is external to these
sources). -/
theorem apply_funcall_spec (call : Function → List Obj → Except LispError Obj)
    (fn : Function) (args : List Obj) (last : Obj) (l : List Obj)
    (hl : as_list last = .ok l) :
    apply call fn (args ++ [last]) = call fn (args ++ l) ∧
    funcall call fn args = call fn args := by
  have harg : applyArgList (args ++ [last]) = .ok (args ++ l) := by
    cases args with
    | nil =>
      show as_list last >>= (fun spliced => Except.ok spliced) = Except.ok l
      rw [hl]
      rfl
    | cons a rest =>
      show (do
          let spliced ← as_list (((a :: rest) ++ [last]).getLast
            (List.cons_ne_nil a (rest ++ [last])))
          Except.ok (((a :: rest) ++ [last]).dropLast ++ spliced)) =
        Except.ok ((a :: rest) ++ l)
      rw [List.getLast_append_singleton (a :: rest), hl, List.dropLast_concat]
      rfl
  refine ⟨?_, rfl⟩
  show applyArgList (args ++ [last]) >>= (fun as => call fn as) = call fn (args ++ l)
  rw [harg]
  rfl

/-- Witness for C5: a dispatch that returns its argument count, applied to one
positional argument and the proper list `(1 2)` as the final argument, is
called on three arguments. -/
theorem apply_funcall_spec_witness :
    apply (fun _ as => .ok (.int as.length)) (Function.subrFn 0)
        [Obj.int 9, Obj.cons 0 (Obj.int 1) (Obj.cons 1 (Obj.int 2) nil)] =
      .ok (.int 3) := by
  have h := apply_funcall_spec
    (fun _ as => (.ok (.int as.length) : Except LispError Obj))
    (Function.subrFn 0) [Obj.int 9]
    (Obj.cons 0 (Obj.int 1) (Obj.cons 1 (Obj.int 2) nil))
    [Obj.int 1, Obj.int 2] rfl
  exact h.1.trans rfl

/-- `definition == nil()` (the structural equality the source uses there)
holds exactly for the nil symbol. -/
theorem equal_nil_iff (o : Obj) : equal o nil = true ↔ o = nil := by
  cases o <;> simp [equal, ptr_eq, nil]

/-- C6: `fset` unbinds the symbol's function cell when the definition is nil;
otherwise it stores the definition as a function (function objects and
symbols, which act as indirect function cells), failing with a `TypeError`
when the definition is not a function; and `defalias` behaves identically to
`fset` for every docstring. -/
theorem fset_defalias_spec (symbol : String) (definition : Obj) :
    (definition = nil → fset symbol definition = .ok (none, symbol)) ∧
    (definition ≠ nil → ∀ f : Function, toFunction definition = .ok f →
      fset symbol definition = .ok (some f, symbol)) ∧
    (definition ≠ nil → (∀ a, definition ≠ .lispFn a) →
      (∀ fid, definition ≠ .subrFn fid) → (∀ n, definition ≠ .symbol n) →
      fset symbol definition = .error (.typeError .func definition)) ∧
    (∀ doc : Option String, defalias symbol definition doc = fset symbol definition) := by
  refine ⟨?_, ?_, ?_, fun doc => rfl⟩
  · intro h
    subst h
    rw [fset, if_pos ((equal_nil_iff nil).mpr rfl)]
  · intro hne f hf
    have he : ¬equal definition nil = true :=
      fun h => hne ((equal_nil_iff definition).mp h)
    rw [fset, if_neg he, hf]
  · intro hne hlisp hsubr hsym
    have he : ¬equal definition nil = true :=
      fun h => hne ((equal_nil_iff definition).mp h)
    have hf : toFunction definition = .error (.typeError .func definition) := by
      cases definition with
      | lispFn a => exact absurd rfl (hlisp a)
      | subrFn fid => exact absurd rfl (hsubr fid)
      | symbol n => exact absurd rfl (hsym n)
      | int n => rfl
      | float ad b => rfl
      | str ad cs => rfl
      | cons ad c d => rfl
      | vec ad xs => rfl
    rw [fset, if_neg he, hf]

/-- Witness for C6: `(fset 'g 'f)` stores the symbol `f` as an indirect
function cell (spec scenario 5). -/
theorem fset_defalias_spec_witness :
    fset "g" (Obj.symbol "f") = .ok (some (Function.symbol "f"), "g") :=
  (fset_defalias_spec "g" (Obj.symbol "f")).2.1 (by decide)
    (Function.symbol "f") rfl

end Rune
